import Mathlib

/-!
Verification of the Real-Alpha-Trader live trading engine.

Shallow embedding, translated from the Python sources under `backend/`:

* `services/trading_strategy.py` — `StrategyState.should_trigger`,
  `StrategyManager.handle_price_update`, `StrategyManager._trigger_account`;
* `services/trading_commands.py` — `_validate_ai_decision`,
  `place_ai_driven_crypto_order`;
* `services/ai_decision_service.py` — `save_ai_decision`, `SUPPORTED_SYMBOLS`;
* `repositories/strategy_repo.py` — `set_last_trigger`;
* `services/binance_sync.py` — `get_binance_balance_and_positions` cache
  behaviour, `execute_binance_order` quantity preparation;
* `services/price_cache.py` — `PriceCache.record/get/get_history/clear_expired`.

Numeric quantities are modelled as exact rationals (`ℚ`); timestamps are
rationals denoting POSIX seconds.  Python dict lookups with absent keys are
modelled with `Option`.
-/

namespace RealAlphaTrader

/-! ## Strategy trigger engine (`services/trading_strategy.py`) -/

/-- `MIN_REALTIME_INTERVAL = 1.0` seconds. -/
def MIN_REALTIME_INTERVAL : ℚ := 1

/-- In-memory per-account strategy state (`StrategyState` dataclass).
The `running` flag and the mutex are modelled separately in the
concurrency model below; this structure carries the scheduling fields. -/
structure StrategyState where
  trigger_mode : String
  interval_seconds : Option Int
  tick_batch_size : Option Int
  enabled : Bool
  last_trigger_at : Option ℚ
  tick_counter : Nat
deriving DecidableEq, Repr

/-- `StrategyState.should_trigger` translated clause by clause.
Python truthiness: `not self.interval_seconds` holds for `None` and `0`,
hence the `none` case and the `≤ 0` test cover exactly the Python
`if not self.interval_seconds or self.interval_seconds <= 0`; likewise for
`tick_batch_size` with the `≤ 1` test. -/
def should_trigger (s : StrategyState) (event_time : ℚ) : Bool :=
  if !s.enabled then false
  else if s.trigger_mode == "realtime" then
    match s.last_trigger_at with
    | none => true
    | some last_ts => decide (event_time - last_ts ≥ MIN_REALTIME_INTERVAL)
  else if s.trigger_mode == "interval" then
    match s.interval_seconds with
    | none => true
    | some iv =>
        if iv ≤ 0 then true
        else
          match s.last_trigger_at with
          | none => true
          | some last_ts => decide (event_time - last_ts ≥ (iv : ℚ))
  else if s.trigger_mode == "tick_batch" then
    match s.tick_batch_size with
    | none => true
    | some n => if n ≤ 1 then true else decide ((s.tick_counter : Int) + 1 ≥ n)
  else
    -- Fallback: treat as realtime
    match s.last_trigger_at with
    | none => true
    | some last_ts => decide (event_time - last_ts ≥ MIN_REALTIME_INTERVAL)

/-- `StrategyState.update_after_trigger`. -/
def update_after_trigger (s : StrategyState) (event_time : ℚ) : StrategyState :=
  { s with last_trigger_at := some event_time, tick_counter := 0 }

/-- `StrategyState.increment_tick`. -/
def increment_tick (s : StrategyState) : StrategyState :=
  { s with tick_counter := s.tick_counter + 1 }

/-- One price event processed for one account, in the sequential case where
each spawned decision task completes before the next event is delivered
(the regime of the spec's tick-batch scenario).  Mirrors the per-state body
of `StrategyManager.handle_price_update` followed by `_trigger_account` and
its `runner`: tick-batch states increment `tick_counter` first, others reset
it; then `should_trigger`; on a trigger the runner performs
`update_after_trigger` (which also zeroes `tick_counter`) and the `finally`
block zeroes `tick_counter` again.  Returns the new state and whether the
decision task was invoked. -/
def processEvent (s : StrategyState) (event_time : ℚ) : StrategyState × Bool :=
  let s1 := if s.trigger_mode == "tick_batch" then increment_tick s
            else { s with tick_counter := 0 }
  if should_trigger s1 event_time then
    if !s1.enabled then ({ s1 with tick_counter := 0 }, false)
    else ({ update_after_trigger s1 event_time with tick_counter := 0 }, true)
  else (s1, false)

/-- Fold `processEvent` over a list of event times, returning the per-event
trigger flags in order. -/
def triggerFlags (s : StrategyState) : List ℚ → List Bool
  | [] => []
  | t :: ts =>
      let r := processEvent s t
      r.2 :: triggerFlags r.1 ts

/-- A fresh tick-batch state with batch size `n`, as built by
`refresh_strategies` for an enabled account. -/
def tickState (n : Int) : StrategyState :=
  { trigger_mode := "tick_batch", interval_seconds := some 1,
    tick_batch_size := some n, enabled := true,
    last_trigger_at := none, tick_counter := 0 }

lemma should_trigger_tick_batch (iv : Option Int) (last : Option ℚ) (c : Nat)
    (nI : Int) (h : ¬ nI ≤ 1) (t : ℚ) :
    should_trigger ⟨"tick_batch", iv, some nI, true, last, c⟩ t
      = decide ((c : Int) + 1 ≥ nI) := by
  simp [should_trigger, h]

lemma processEvent_tick_batch (iv : Option Int) (last : Option ℚ) (c : Nat)
    (nI : Int) (h : ¬ nI ≤ 1) (t : ℚ) :
    processEvent ⟨"tick_batch", iv, some nI, true, last, c⟩ t
      = if (c : Int) + 1 + 1 ≥ nI
        then (⟨"tick_batch", iv, some nI, true, some t, 0⟩, true)
        else (⟨"tick_batch", iv, some nI, true, last, c + 1⟩, false) := by
  have hs := should_trigger_tick_batch iv last (c + 1) nI h t
  by_cases hge : (c : Int) + 1 + 1 ≥ nI
  · have : should_trigger ⟨"tick_batch", iv, some nI, true, last, c + 1⟩ t = true := by
      rw [hs]; push_cast; simpa using hge
    simp [processEvent, increment_tick, update_after_trigger, this, hge]
  · have : should_trigger ⟨"tick_batch", iv, some nI, true, last, c + 1⟩ t = false := by
      rw [hs]; push_cast; simpa using hge
    simp [processEvent, increment_tick, this, hge]

/-- Flag pattern of a tick-batch account: starting from `tick_counter = c`
(with `c + 1 < n`), the `k`-th delivered event (0-indexed) invokes the
decision task exactly when `(c + k + 1) % (n - 1) = 0`. -/
lemma triggerFlags_tick_batch (n : ℕ) (hn : 2 ≤ n) (iv : Option Int) :
    ∀ (times : List ℚ) (c k : ℕ) (last : Option ℚ), c + 1 < n → k < times.length →
      (triggerFlags ⟨"tick_batch", iv, some (n : Int), true, last, c⟩ times).getD k false
        = decide ((c + k + 1) % (n - 1) = 0) := by
  have hnI : ¬ (n : Int) ≤ 1 := by exact_mod_cast by omega
  intro times
  induction times with
  | nil => intro c k last _ hk; simp at hk
  | cons t ts ih =>
    intro c k last hc hk
    rw [triggerFlags, processEvent_tick_batch iv last c (n : Int) hnI t]
    by_cases hge : (c : Int) + 1 + 1 ≥ (n : Int)
    · have hcn : c + 2 = n := by omega
      simp only [if_pos hge]
      cases k with
      | zero =>
          have : (c + 0 + 1) % (n - 1) = 0 := by
            have : c + 1 = n - 1 := by omega
            simp [this]
          simp [this]
      | succ k =>
          have hk' : k < ts.length := by simpa using hk
          have := ih 0 k (some t) (by omega) hk'
          simp only [List.getD_cons_succ]
          rw [this]
          have h1 : c + (k + 1) + 1 = (n - 1) + (k + 1) := by omega
          rw [h1, Nat.add_mod_left, Nat.zero_add]
    · have hlt : c + 2 < n := by omega
      simp only [if_neg hge]
      cases k with
      | zero =>
          have : (c + 0 + 1) % (n - 1) = c + 1 := Nat.mod_eq_of_lt (by omega)
          simp [this]
      | succ k =>
          have hk' : k < ts.length := by simpa using hk
          have := ih (c + 1) k last (by omega) hk'
          simp only [List.getD_cons_succ]
          rw [this]
          have h1 : c + 1 + k + 1 = c + (k + 1) + 1 := by omega
          rw [h1]

/-- C2 counterexample: an enabled tick-batch account with
`tick_batch_size = 5` fed 11 price events invokes the decision task after
the 4th and 8th events — the 4th event (0-indexed position 3) already
triggers, contradicting "on the Nth published price event and on no earlier
event" (which predicts triggers after the 5th and 10th events only).
`handle_price_update` increments `tick_counter` before `should_trigger`
tests `tick_counter + 1 ≥ tick_batch_size`, so the gate fires one event
early. -/
theorem tick_batch_gate_counterexample :
    triggerFlags (tickState 5) [1, 2, 3, 4, 5, 6, 7, 8, 9, 10, 11]
      = [false, false, false, true, false, false, false, true, false, false, false] ∧
    (triggerFlags (tickState 5) [1, 2, 3, 4, 5, 6, 7, 8, 9, 10, 11]).getD 3 false = true ∧
    (triggerFlags (tickState 5) [1, 2, 3, 4, 5, 6, 7, 8, 9, 10, 11]).getD 4 false = false := by
  refine ⟨by decide, by decide, by decide⟩

/-- C2 amended: for an enabled tick-batch account with
`tick_batch_size = N ≥ 2` starting from `tick_counter = 0`, the decision
task is invoked exactly on every `(N-1)`-th published price event (so with
`N = 5` and 11 events, triggers occur after the 4th and 8th events). -/
theorem tick_batch_gate (n : ℕ) (hn : 2 ≤ n) (times : List ℚ) (k : ℕ)
    (hk : k < times.length) :
    (triggerFlags (tickState (n : Int)) times).getD k false = true ↔ (n - 1) ∣ (k + 1) := by
  have h := triggerFlags_tick_batch n hn (some 1) times 0 k none (by omega) hk
  have hts : tickState (n : Int)
      = ⟨"tick_batch", some 1, some (n : Int), true, none, 0⟩ := rfl
  rw [hts, h]
  simp [Nat.dvd_iff_mod_eq_zero]

/-- Witness for `tick_batch_gate` at `N = 5`, 5 events, 4th event. -/
theorem tick_batch_gate_witness :
    (triggerFlags (tickState 5) [1, 2, 3, 4, 5]).getD 3 false = true := by
  have h := tick_batch_gate 5 (by norm_num) [1, 2, 3, 4, 5] 3 (by norm_num)
  exact h.mpr (by norm_num)

/-- C10: implicit trigger-policy defaults of `StrategyState.should_trigger`:
an enabled state triggers on every price event when `trigger_mode =
"interval"` with `interval_seconds` null or non-positive, or `trigger_mode =
"tick_batch"` with `tick_batch_size` null or `≤ 1`; and any `trigger_mode`
outside {realtime, interval, tick_batch, disabled} behaves exactly like
realtime. -/
theorem should_trigger_defaults (s : StrategyState) (t : ℚ) (he : s.enabled = true) :
    (s.trigger_mode = "interval" →
      (s.interval_seconds = none ∨ ∃ iv, s.interval_seconds = some iv ∧ iv ≤ 0) →
      should_trigger s t = true)
    ∧ (s.trigger_mode = "tick_batch" →
      (s.tick_batch_size = none ∨ ∃ b, s.tick_batch_size = some b ∧ b ≤ 1) →
      should_trigger s t = true)
    ∧ (s.trigger_mode ∉ ["realtime", "interval", "tick_batch", "disabled"] →
      should_trigger s t = should_trigger { s with trigger_mode := "realtime" } t) := by
  refine ⟨?_, ?_, ?_⟩
  · intro hm hiv
    rcases hiv with h0 | ⟨iv, hiv, hle⟩
    · simp [should_trigger, he, hm, h0]
    · simp [should_trigger, he, hm, hiv, hle]
  · intro hm hb
    rcases hb with h0 | ⟨b, hb, hle⟩
    · simp [should_trigger, he, hm, h0]
    · simp [should_trigger, he, hm, hb, hle]
  · intro hm
    have h1 : s.trigger_mode ≠ "realtime" := by simp_all
    have h2 : s.trigger_mode ≠ "interval" := by simp_all
    have h3 : s.trigger_mode ≠ "tick_batch" := by simp_all
    simp [should_trigger, he, h1, h2, h3]

/-- Witness for `should_trigger_defaults` at concrete states: a null
`interval_seconds` interval state always triggers, and an unknown mode
`"custom"` behaves like realtime. -/
theorem should_trigger_defaults_witness :
    should_trigger ⟨"interval", none, some 5, true, some 100, 0⟩ 100 = true ∧
    should_trigger ⟨"custom", some 3, some 4, true, some 100, 2⟩ 100
      = should_trigger ⟨"realtime", some 3, some 4, true, some 100, 2⟩ 100 := by
  constructor
  · exact (should_trigger_defaults ⟨"interval", none, some 5, true, some 100, 0⟩ 100
      rfl).1 rfl (Or.inl rfl)
  · exact (should_trigger_defaults ⟨"custom", some 3, some 4, true, some 100, 2⟩ 100
      rfl).2.2 (by decide)

/-! ## Decision validation and the decision log
(`services/trading_commands.py`, `services/ai_decision_service.py`) -/

/-- A parsed oracle decision dict.  `none` fields model absent keys
(`dict.get` returning `None`). -/
structure Decision where
  operation : Option String
  symbol : Option String
  target_portion_of_balance : Option ℚ
  reason : Option String
deriving DecidableEq, Repr

/-- Python string truthiness for `Option String`: both a missing key and an
empty string are falsy. -/
def strTruthy : Option String → Option String
  | none => none
  | some s => if s = "" then none else some s

/-- Python `str.lower()` (character-wise, as in CPython for ASCII). -/
def pyLower (s : String) : String := String.mk (s.data.map Char.toLower)

/-- Python `str.upper()` (character-wise, as in CPython for ASCII). -/
def pyUpper (s : String) : String := String.mk (s.data.map Char.toUpper)

/-- `decision.get("operation", "").lower() if decision.get("operation") else ""`. -/
def normOperation (d : Decision) : String :=
  match strTruthy d.operation with
  | none => ""
  | some s => pyLower s

/-- `decision.get("symbol", "").upper() if decision.get("symbol") else ""`. -/
def normSymbol (d : Decision) : String :=
  match strTruthy d.symbol with
  | none => ""
  | some s => pyUpper s

/-- `float(decision.get("target_portion_of_balance", 0)) if ... is not None else 0`. -/
def normPortion (d : Decision) : ℚ :=
  match d.target_portion_of_balance with
  | none => 0
  | some q => q

/-- `decision.get("reason", "No reason provided")`. -/
def normReason (d : Decision) : String :=
  match d.reason with
  | none => "No reason provided"
  | some s => s

/-- `SUPPORTED_SYMBOLS` keys (`services/ai_decision_service.py`). -/
def SUPPORTED_SYMBOLS : List String := ["BTC", "ETH", "SOL", "DOGE", "XRP", "BNB"]

/-- `_validate_ai_decision` (`services/trading_commands.py`).  The argument
is `none` when the oracle call produced nothing (`decision` falsy / not a
dict), in which case the function bails out.  Returns
`(operation, symbol, target_portion, reason)` when the decision is
accepted. -/
def _validate_ai_decision : Option Decision → Option (String × String × ℚ × String)
  | none => none
  | some d =>
    let operation := normOperation d
    let symbol := normSymbol d
    let target_portion := normPortion d
    let reason := normReason d
    if ¬ (operation ∈ ["buy", "sell", "hold"]) then none
    else if operation = "hold" then some (operation, symbol, target_portion, reason)
    else if ¬ (symbol ∈ SUPPORTED_SYMBOLS) then none
    else if target_portion ≤ 0 ∨ target_portion > 1 then none
    else some (operation, symbol, target_portion, reason)

/-- A concrete well-formed close decision: operation "close" (normalizing to
itself), a supported symbol, portion in (0, 1]. -/
def closeDecision : Decision :=
  { operation := some "close", symbol := some "BTC",
    target_portion_of_balance := some (1 / 2), reason := some "take profit" }

/-- C3 (code bug): `_validate_ai_decision` rejects a well-formed close
decision — `operation` normalizes to "close", the symbol is supported,
`target_portion_of_balance = 1/2 ∈ (0, 1]` — because the operation
whitelist is `["buy", "sell", "hold"]` and omits "close", even though the
prompt built in `services/ai_decision_service.py` instructs the oracle that
`"operation": "buy" | "sell" | "hold" | "close"` is the reply contract.  So
the executor never sizes or submits close decisions; it logs them as
unexecuted and skips the account. -/
theorem close_decision_rejected :
    normOperation closeDecision = "close" ∧
    normSymbol closeDecision ∈ SUPPORTED_SYMBOLS ∧
    0 < normPortion closeDecision ∧ normPortion closeDecision ≤ 1 ∧
    _validate_ai_decision (some closeDecision) = none := by
  refine ⟨by decide, by decide, by norm_num [normPortion, closeDecision],
    by norm_num [normPortion, closeDecision], by decide⟩

/-- A row of `ai_decision_logs` restricted to the fields the invariant
speaks about (`AIDecisionLog` in `database/models.py`; `executed` is stored
as the strings "true"/"false", modelled as `Bool`). -/
structure AIDecisionLogRow where
  operation : String
  symbol : Option String
  executed : Bool
  order_id : Option Int
deriving DecidableEq, Repr

/-- `save_ai_decision` (`services/ai_decision_service.py`) restricted to the
fields above: `operation` is the lower-cased operation, `symbol` is the
upper-cased symbol except that hold rows store `NULL`
(`symbol if operation != "hold" else None`), `executed` and `order_id` are
the caller's arguments. -/
def save_ai_decision (d : Decision) (executed : Bool) (order_id : Option Int) :
    AIDecisionLogRow :=
  let operation := normOperation d
  let symbol := (strTruthy d.symbol).map pyUpper
  { operation := operation
    symbol := if operation = "hold" then none else symbol
    executed := executed
    order_id := order_id }

/-- Environment data consulted by `place_ai_driven_crypto_order` for one
account: the live price for the decision's symbol, the broker balance
fetch, the outcomes of `_calculate_buy_quantity` / `_calculate_sell_quantity`
(they depend on live exchange balances and commission config and only select
which `save_ai_decision` call site runs), configured API keys, and whether
the broker accepted the market order. -/
structure ExecEnv where
  price : Option ℚ
  balance : Option ℚ
  buy_qty : Option ℚ
  sell_qty : Option (ℚ × ℚ)
  has_api_keys : Bool
  trade_ok : Bool
deriving DecidableEq, Repr

/-- The decision-log rows written by the per-account body of
`place_ai_driven_crypto_order` (`services/trading_commands.py`), one call
site per branch of the source:
invalid decision (saved unexecuted when the dict is present), hold (saved
executed), missing/non-positive price, failed balance fetch, failed buy or
sell sizing, missing API keys, broker failure (all unexecuted), and broker
success (executed).  `order_id` is never passed, so every row carries
`order_id = None`. -/
def process_account (d : Option Decision) (env : ExecEnv) : List AIDecisionLogRow :=
  match _validate_ai_decision d with
  | none =>
    match d with
    | none => []
    | some dd => [save_ai_decision dd false none]
  | some (operation, _symbol, _tp, _reason) =>
    match d with
    | none => []
    | some dd =>
      if operation = "hold" then [save_ai_decision dd true none]
      else
        match env.price with
        | none => [save_ai_decision dd false none]
        | some p =>
          if p ≤ 0 then [save_ai_decision dd false none]
          else if operation = "buy" then
            match env.balance with
            | none => [save_ai_decision dd false none]
            | some _ =>
              match env.buy_qty with
              | none => [save_ai_decision dd false none]
              | some _ =>
                if ¬ env.has_api_keys then [save_ai_decision dd false none]
                else if env.trade_ok then [save_ai_decision dd true none]
                else [save_ai_decision dd false none]
          else
            match env.sell_qty with
            | none => [save_ai_decision dd false none]
            | some _ =>
              if ¬ env.has_api_keys then [save_ai_decision dd false none]
              else if env.trade_ok then [save_ai_decision dd true none]
              else [save_ai_decision dd false none]

lemma validate_some_operation {dd : Decision} {op sym : String} {tp : ℚ} {r : String}
    (h : _validate_ai_decision (some dd) = some (op, sym, tp, r)) :
    op = normOperation dd ∧ op ∈ (["buy", "sell", "hold"] : List String) := by
  simp only [_validate_ai_decision] at h
  split_ifs at h with h1 h2 h3 h4 <;>
    first
      | (cases h; exact ⟨rfl, by simpa using h1⟩)
      | cases h

lemma validate_none_not_hold {dd : Decision}
    (h : _validate_ai_decision (some dd) = none) :
    normOperation dd ≠ "hold" := by
  simp only [_validate_ai_decision] at h
  split_ifs at h with h1 h2 h3 h4 <;> first
    | (intro hc; exact h1 (by simp [hc]))
    | exact h2
    | cases h

/-- A hold decision as the oracle returns it. -/
def holdDecision : Decision :=
  { operation := some "hold", symbol := none,
    target_portion_of_balance := some 0, reason := some "wait" }

/-- A benign environment: price present, balance present, API keys set,
broker accepts. -/
def env0 : ExecEnv :=
  { price := some 100, balance := some 1000, buy_qty := some 1,
    sell_qty := some (1, 1), has_api_keys := true, trade_ok := true }

/-- C5 counterexample: the pipeline writes the hold row with
`executed = true`, `operation = "hold"` and a `NULL` order id, violating
"executed = true implies operation is one of buy, sell, close and the
broker order id field is non-null" — `"hold" ∉ {buy, sell, close}` and the
order-id column is `NULL` (`place_ai_driven_crypto_order` never passes
`order_id` to `save_ai_decision`; the broker order id only appears in log
strings). -/
theorem decision_log_invariant_counterexample :
    process_account (some holdDecision) env0
      = [{ operation := "hold", symbol := none, executed := true, order_id := none }] ∧
    ("hold" ∈ (["buy", "sell", "close"] : List String)) = False := by
  refine ⟨by decide, by simp⟩

/-- C5 amended: every decision-log row written by the pipeline satisfies
(executed = true implies operation ∈ {buy, sell, hold}), the order-id
column is always `NULL` (the pipeline never records the broker order id in
the row), and (operation = hold implies executed = true and symbol is
null). -/
theorem decision_log_invariant (d : Option Decision) (env : ExecEnv)
    (r : AIDecisionLogRow) (hr : r ∈ process_account d env) :
    (r.executed = true → r.operation ∈ (["buy", "sell", "hold"] : List String))
    ∧ r.order_id = none
    ∧ (r.operation = "hold" → r.executed = true ∧ r.symbol = none) := by
  unfold process_account at hr
  cases hv : _validate_ai_decision d with
  | none =>
    rw [hv] at hr
    cases d with
    | none => simp at hr
    | some dd =>
      simp only [List.mem_singleton] at hr
      subst hr
      have hnh := validate_none_not_hold hv
      refine ⟨by simp [save_ai_decision], by simp [save_ai_decision], ?_⟩
      intro hop
      exact absurd (by simpa [save_ai_decision] using hop) hnh
  | some v =>
    obtain ⟨op, sym, tp, rs⟩ := v
    rw [hv] at hr
    cases d with
    | none => simp at hr
    | some dd =>
      dsimp only at hr
      have ⟨hopeq, hopmem⟩ := validate_some_operation hv
      have key : ∀ ex : Bool, r = save_ai_decision dd ex none →
          (r.executed = true → r.operation ∈ (["buy", "sell", "hold"] : List String))
          ∧ r.order_id = none
          ∧ (r.operation = "hold" → r.executed = true ∧ r.symbol = none) := by
        intro ex hre
        subst hre
        refine ⟨?_, by simp [save_ai_decision], ?_⟩
        · intro _
          simpa [save_ai_decision, ← hopeq] using hopmem
        · intro hop
          have hoph : normOperation dd = "hold" := by
            simpa [save_ai_decision] using hop
          constructor
          · by_contra hex
            simp only [Bool.not_eq_true] at hex
            -- an `executed = false` row for this decision can only come from a
            -- non-hold branch, each of which requires `op ≠ "hold"`
            subst hex
            by_cases hh : op = "hold"
            · rw [if_pos hh] at hr
              simp [save_ai_decision] at hr
            · rw [if_neg hh] at hr
              exact hh (hopeq.trans hoph)
          · simp [save_ai_decision, hoph]
      by_cases hh : op = "hold"
      · rw [if_pos hh] at hr
        simp only [List.mem_singleton] at hr
        exact key true hr
      · rw [if_neg hh] at hr
        have hrsave : ∃ ex : Bool, r = save_ai_decision dd ex none := by
          clear key
          repeat' split at hr
          all_goals simp only [List.mem_singleton] at hr
          all_goals exact ⟨_, hr⟩
        obtain ⟨ex, hre⟩ := hrsave
        exact key ex hre

/-- Witness for `decision_log_invariant`: the hold row written in `env0`. -/
theorem decision_log_invariant_witness :
    ({ operation := "hold", symbol := none, executed := true, order_id := none }
        : AIDecisionLogRow).order_id = none :=
  (decision_log_invariant (some holdDecision) env0 _ (by decide)).2.1

/-! ## `last_trigger_at` bookkeeping
(`StrategyManager._trigger_account.runner`, `save_ai_decision`,
`strategy_repo.set_last_trigger`) -/

/-- In-memory and persisted `last_trigger_at` after one decision task. -/
structure LastTriggerOutcome where
  mem_last : Option ℚ
  db_last : Option ℚ
deriving DecidableEq, Repr

/-- One decision task's effect on `last_trigger_at`, from
`_trigger_account.runner`: the runner calls
`place_ai_driven_crypto_order` and then unconditionally
`state.update_after_trigger(event_time)`; only an escaped exception skips
the in-memory update (the pipeline catches its own errors, so `raised`
is the abnormal case).  On the database side, `save_ai_decision` calls
`set_last_trigger(db, account.id, decision_log.decision_time)` whenever a
decision row was written — i.e. whenever the oracle reply dict was not
`None`, valid or not — and stores the row's `decision_time`, not the
triggering `event_time`. -/
def runner_last_trigger (old_mem old_db : Option ℚ) (event_time : ℚ)
    (oracle_reply : Option Decision) (env : ExecEnv) (decision_time : ℚ)
    (raised : Bool) : LastTriggerOutcome :=
  if raised then { mem_last := old_mem, db_last := old_db }
  else
    { mem_last := some event_time
      db_last :=
        match process_account oracle_reply env with
        | [] => old_db
        | _ :: _ => some decision_time }

/-- C4 counterexample: with `event_time = 1000` and a decision row whose
`decision_time = 1234`, a successful HOLD reply leaves the in-memory
`last_trigger_at = 1000` but persists `1234` — not the same value, so
"the same value is persisted to StrategyConfig.last_trigger_at" fails;
and with no oracle reply at all (`none`), the in-memory value still
becomes `1000`, so "when the oracle call fails ... last_trigger_at is
unchanged both in memory and in the database" also fails. -/
theorem last_trigger_counterexample :
    runner_last_trigger (some 1) (some 1) 1000 (some holdDecision) env0 1234 false
      = { mem_last := some 1000, db_last := some 1234 } ∧
    (1234 : ℚ) ≠ 1000 ∧
    runner_last_trigger (some 1) (some 1) 1000 none env0 1234 false
      = { mem_last := some 1000, db_last := some 1 } := by
  refine ⟨by decide, by norm_num, by decide⟩

/-- C4 amended: after a decision task completes without an escaped
exception, the in-memory `last_trigger_at` equals the triggering event's
`event_time` regardless of the oracle outcome; the persisted
`StrategyConfig.last_trigger_at` is set to the decision row's
`decision_time` (not `event_time`) if and only if the oracle produced a
reply dict (valid or not, including HOLD); when the oracle produced
nothing the persisted value is unchanged; when an exception escapes the
pipeline both values are unchanged. -/
theorem last_trigger_semantics (old_mem old_db : Option ℚ) (event_time : ℚ)
    (oracle_reply : Option Decision) (env : ExecEnv) (decision_time : ℚ)
    (raised : Bool) :
    (raised = false →
      (runner_last_trigger old_mem old_db event_time oracle_reply env
        decision_time raised).mem_last = some event_time)
    ∧ (raised = false → ∀ d, oracle_reply = some d →
      (runner_last_trigger old_mem old_db event_time oracle_reply env
        decision_time raised).db_last = some decision_time)
    ∧ (raised = false → oracle_reply = none →
      (runner_last_trigger old_mem old_db event_time oracle_reply env
        decision_time raised).db_last = old_db)
    ∧ (raised = true →
      runner_last_trigger old_mem old_db event_time oracle_reply env
        decision_time raised = { mem_last := old_mem, db_last := old_db }) := by
  refine ⟨?_, ?_, ?_, ?_⟩
  · intro hr; subst hr; simp [runner_last_trigger]
  · intro hr d hd; subst hr; subst hd
    have hne : process_account (some d) env ≠ [] := by
      unfold process_account
      cases hv : _validate_ai_decision (some d) with
      | none => simp
      | some v =>
        obtain ⟨op, sym, tp, rs⟩ := v
        dsimp only
        repeat' split
        all_goals simp
    cases hpr : process_account (some d) env with
    | nil => exact absurd hpr hne
    | cons a l => simp [runner_last_trigger, hpr]
  · intro hr hnone; subst hr; subst hnone
    simp [runner_last_trigger, process_account, _validate_ai_decision]
  · intro hr; subst hr; simp [runner_last_trigger]

/-- Witness for `last_trigger_semantics` at the counterexample values. -/
theorem last_trigger_semantics_witness :
    (runner_last_trigger (some 1) (some 1) 1000 (some holdDecision) env0 1234
      false).db_last = some 1234 :=
  (last_trigger_semantics (some 1) (some 1) 1000 (some holdDecision) env0 1234
    false).2.1 rfl holdDecision rfl

/-! ## Broker balance/positions cache (`services/binance_sync.py`) -/

/-- `CACHE_TTL_SECONDS = 5.0` (`services/trading_commands.py`). -/
def CACHE_TTL_SECONDS : ℚ := 5

/-- One account's slot of `_balance_positions_cache`:
`(balance, cached_time)` (the positions payload plays no role in the
invalidation logic and is omitted). -/
structure BalanceCacheState where
  entry : Option (ℚ × ℚ)
deriving DecidableEq, Repr

/-- `get_binance_balance_and_positions`, cache behaviour: a cached entry
younger than the TTL is served; otherwise an HTTP fetch happens — on
success the entry is replaced (fresh balance, fetch time), on failure the
entry is deleted (both `except` branches delete the key).  `fetch_ok` and
`fresh_bal` stand for the outcome of the signed HTTP call.  Returns the new
cache state, the returned balance, and whether an HTTP round trip was
performed. -/
def get_binance_balance_and_positions (c : BalanceCacheState) (now : ℚ)
    (fetch_ok : Bool) (fresh_bal : ℚ) : BalanceCacheState × Option ℚ × Bool :=
  match c.entry with
  | some (bal, ts) =>
    if now - ts < CACHE_TTL_SECONDS then (c, some bal, false)
    else if fetch_ok then ({ entry := some (fresh_bal, now) }, some fresh_bal, true)
    else ({ entry := none }, none, true)
  | none =>
    if fetch_ok then ({ entry := some (fresh_bal, now) }, some fresh_bal, true)
    else ({ entry := none }, none, true)

/-- Effect of `execute_binance_order` on the balance cache: none.  The
function never reads or writes `_balance_positions_cache` and never calls
`clear_balance_cache`, whether the order succeeds or fails. -/
def execute_binance_order_cache (c : BalanceCacheState) (_success : Bool) :
    BalanceCacheState := c

/-- Effect of `cancel_binance_order` on the balance cache: none, for the
same reason. -/
def cancel_binance_order_cache (c : BalanceCacheState) (_success : Bool) :
    BalanceCacheState := c

/-- `clear_balance_cache` for one account: deletes the entry.  In the
repository it is called only from the standalone `query_balance_direct.py`
script, never from the trading pipeline. -/
def clear_balance_cache (_c : BalanceCacheState) : BalanceCacheState :=
  { entry := none }

/-- C6 counterexample: populate the cache at `t = 0` (balance 100), submit
a successful order, then call `GetBalanceAndPositions` at `t = 3` (within
the 5-second TTL): the entry is untouched by the submission and the call
returns the pre-trade cached balance 100 without an HTTP round trip, not a
fresh fetch (which would return 999).  So "after any successful order
submission ... the cached entry for that account is invalidated" fails. -/
theorem balance_cache_not_invalidated_on_trade :
    (execute_binance_order_cache
        (get_binance_balance_and_positions ⟨none⟩ 0 true 100).1 true).entry
      = some (100, 0) ∧
    (get_binance_balance_and_positions
        (execute_binance_order_cache
          (get_binance_balance_and_positions ⟨none⟩ 0 true 100).1 true)
        3 true 999).2
      = (some 100, false) := by
  refine ⟨rfl, by norm_num [get_binance_balance_and_positions,
    execute_binance_order_cache, CACHE_TTL_SECONDS]⟩

/-- C6 amended: a successful (or failed) order submission or cancellation
leaves the per-account cache entry exactly as it was; consequently a
`GetBalanceAndPositions` call within the 5-second TTL after a successful
trade is served the pre-trade cached value with no fresh exchange fetch.
The entry is only removed by a failed fetch, by TTL expiry, or by an
explicit `clear_balance_cache` call, which the trading pipeline never
makes. -/
theorem balance_cache_trade_semantics (c : BalanceCacheState) (s : Bool)
    (bal ts now : ℚ) (he : c.entry = some (bal, ts))
    (hfresh : now - ts < CACHE_TTL_SECONDS) :
    execute_binance_order_cache c s = c
    ∧ cancel_binance_order_cache c s = c
    ∧ (get_binance_balance_and_positions (execute_binance_order_cache c s)
        now true 999).2 = (some bal, false) := by
  refine ⟨rfl, rfl, ?_⟩
  simp [execute_binance_order_cache, get_binance_balance_and_positions, he, hfresh]

/-- Witness for `balance_cache_trade_semantics`. -/
theorem balance_cache_trade_semantics_witness :
    (get_binance_balance_and_positions
      (execute_binance_order_cache ⟨some (100, 0)⟩ true) 3 true 999).2
      = (some 100, false) :=
  (balance_cache_trade_semantics ⟨some (100, 0)⟩ true 100 0 3 rfl
    (by norm_num [CACHE_TTL_SECONDS])).2.2

/-- C8 counterexample: populate the cache at `t = 0` (balance 100), then a
broker order submission fails; the cache entry for the account is still
present, and `GetBalanceAndPositions` at `t = 2` serves the cached value
with no fresh HTTP round trip.  So "after any broker call returning an
error ... the per-account balance/positions cache entry is absent" fails
for failed order submissions. -/
theorem stale_cache_after_failed_order :
    (execute_binance_order_cache
        (get_binance_balance_and_positions ⟨none⟩ 0 true 100).1 false).entry
      = some (100, 0) ∧
    (get_binance_balance_and_positions
        (execute_binance_order_cache
          (get_binance_balance_and_positions ⟨none⟩ 0 true 100).1 false)
        2 true 999).2
      = (some 100, false) := by
  refine ⟨rfl, by norm_num [get_binance_balance_and_positions,
    execute_binance_order_cache, CACHE_TTL_SECONDS]⟩

/-- C8 amended: after a *failed `GetBalanceAndPositions` fetch* the cache
entry is absent and the next call performs a fresh HTTP round trip; but a
failed order submission or cancellation leaves the cache untouched, so a
subsequent call within the TTL is served from the cache. -/
theorem no_stale_cache_on_fetch_error (c : BalanceCacheState) (now now' : ℚ)
    (fresh : ℚ) (ok' : Bool) (fresh' : ℚ)
    (herr : (get_binance_balance_and_positions c now false fresh).2.2 = true) :
    (get_binance_balance_and_positions c now false fresh).1.entry = none
    ∧ (get_binance_balance_and_positions
        (get_binance_balance_and_positions c now false fresh).1
        now' ok' fresh').2.2 = true := by
  cases hc : c.entry with
  | none =>
    refine ⟨by simp [get_binance_balance_and_positions, hc], ?_⟩
    cases ok' <;> simp [get_binance_balance_and_positions, hc]
  | some e =>
    obtain ⟨bal, ts⟩ := e
    by_cases hf : now - ts < CACHE_TTL_SECONDS
    · exfalso
      simp [get_binance_balance_and_positions, hc, hf] at herr
    · refine ⟨by simp [get_binance_balance_and_positions, hc, hf], ?_⟩
      cases ok' <;> simp [get_binance_balance_and_positions, hc, hf]

/-- Witness for `no_stale_cache_on_fetch_error`: an expired entry, failed
fetch at `t = 10`. -/
theorem no_stale_cache_on_fetch_error_witness :
    (get_binance_balance_and_positions ⟨some (100, 0)⟩ 10 false 0).1.entry = none :=
  (no_stale_cache_on_fetch_error ⟨some (100, 0)⟩ 10 11 0 true 0 (by
    norm_num [get_binance_balance_and_positions, CACHE_TTL_SECONDS])).1

/-! ## Order preparation (`execute_binance_order`, `services/binance_sync.py`) -/

/-- `step_size_map.get(symbol.upper(), 0.00001)`. -/
def step_size_map (symbol : String) : ℚ :=
  let u := pyUpper symbol
  if u = "BTC" then 1 / 100000
  else if u = "ETH" then 1 / 10000
  else if u = "SOL" then 1 / 100
  else if u = "BNB" then 1 / 1000
  else if u = "XRP" then 1
  else if u = "DOGE" then 1
  else 1 / 100000

/-- `min_notional_map.get(symbol.upper(), 10.0)` — 10 USDT for every entry
and for the default. -/
def min_notional_map (_symbol : String) : ℚ := 10

/-- The quantity-preparation logic of `execute_binance_order`, with the
arithmetic interpreted exactly over ℚ (Python float `//` is floor
division, modelled by `Int.floor` of the exact quotient).  Returns the
quantity actually submitted to the exchange (`.ok`) or the local rejection
(`.error`):

1. reject if `quantity * price < min_notional`;
2. `quantity_adjusted = (quantity // step_size) * step_size`; reject if
   `≤ 0`;
3. if `quantity_adjusted * price < min_notional`, bump to
   `((min_notional / price) // step_size) * step_size + step_size` and
   submit it if that meets the minimum, otherwise reject. -/
def execute_binance_order_qty (symbol : String) (quantity price : ℚ) :
    Except String ℚ :=
  let step_size := step_size_map symbol
  let min_notional := min_notional_map symbol
  let estimated_notional := quantity * price
  if estimated_notional < min_notional then
    .error "Order value below minimum"
  else
    let quantity_adjusted : ℚ := (⌊quantity / step_size⌋ : ℚ) * step_size
    if quantity_adjusted ≤ 0 then
      .error "Adjusted quantity too small"
    else
      let adjusted_notional := quantity_adjusted * price
      if adjusted_notional < min_notional then
        let min_quantity_needed : ℚ :=
          (⌊(min_notional / price) / step_size⌋ : ℚ) * step_size + step_size
        if min_quantity_needed * price ≥ min_notional then
          .ok min_quantity_needed
        else
          .error "Adjusted order value below minimum"
      else
        .ok quantity_adjusted

lemma step_size_map_pos (symbol : String) : 0 < step_size_map symbol := by
  unfold step_size_map
  dsimp only
  split_ifs <;> norm_num

/-- C7: every quantity that `execute_binance_order` actually submits is an
integer multiple of the symbol's step size (0.00001 for BTC, 0.0001 for
ETH, 0.01 for SOL, 0.001 for BNB, 1 for XRP and DOGE, default 0.00001) and
satisfies `quantity * ref_price ≥ min_notional` (10 USDT), with the
arithmetic interpreted exactly. -/
theorem lot_size_notional_law (symbol : String) (quantity price qty : ℚ)
    (h : execute_binance_order_qty symbol quantity price = .ok qty) :
    (∃ k : ℤ, qty = (k : ℚ) * step_size_map symbol)
    ∧ qty * price ≥ min_notional_map symbol := by
  unfold execute_binance_order_qty at h
  dsimp only at h
  split_ifs at h with h1 h2 h3 h4 <;> cases h <;>
    first
      | exact ⟨⟨⌊(min_notional_map symbol / price) / step_size_map symbol⌋ + 1, by
          push_cast; ring⟩, h4⟩
      | exact ⟨⟨⌊quantity / step_size_map symbol⌋, rfl⟩, not_lt.mp h3⟩

/-- Witness for `lot_size_notional_law`: a BTC order of 0.00025 at price
50000 is submitted as-is (already a step multiple, notional 12.5 ≥ 10). -/
theorem lot_size_notional_law_witness :
    ∃ k : ℤ, (1 / 4000 : ℚ) = (k : ℚ) * step_size_map "BTC" := by
  have hu : pyUpper "BTC" = "BTC" := by decide
  have hstep : step_size_map "BTC" = 1 / 100000 := by simp [step_size_map, hu]
  refine (lot_size_notional_law "BTC" (1 / 4000) 50000 (1 / 4000) ?_).1
  unfold execute_binance_order_qty
  rw [hstep]
  norm_num [min_notional_map]

/-! ## Price cache and rolling history (`services/price_cache.py`)

One `(symbol, market)` key of the global `PriceCache(ttl_seconds=30,
history_seconds=3600)` instance; keys are independent in every operation,
including `clear_expired`, whose per-key effect depends only on that key's
own cache entry and history. -/

/-- `ttl_seconds = 30` of the global instance. -/
def PRICE_TTL_SECONDS : ℚ := 30

/-- `history_seconds = 3600` of the global instance. -/
def HISTORY_SECONDS : ℚ := 3600

/-- One key's slot: the short-TTL cache entry `(price, timestamp)` and the
history deque of `(timestamp, price)` pairs, oldest first. -/
structure PriceKeyState where
  cache : Option (ℚ × ℚ)
  history : List (ℚ × ℚ)
deriving DecidableEq, Repr

/-- `while history_queue and history_queue[0][0] < cutoff:
history_queue.popleft()`. -/
def pruneHistory (cutoff : ℚ) : List (ℚ × ℚ) → List (ℚ × ℚ)
  | [] => []
  | (ts, p) :: rest =>
      if ts < cutoff then pruneHistory cutoff rest else (ts, p) :: rest

/-- `PriceCache.record`: store the cache entry, append to the history, and
prune history entries older than `event_time - history_seconds`. -/
def PriceCache_record (s : PriceKeyState) (price : ℚ) (event_time : ℚ) :
    PriceKeyState :=
  { cache := some (price, event_time)
    history := pruneHistory (event_time - HISTORY_SECONDS)
      (s.history ++ [(event_time, price)]) }

/-- `PriceCache.get`: serve the entry within TTL; purge an expired entry.
The history is not touched.  Returns the new state and the cached price. -/
def PriceCache_get (s : PriceKeyState) (now : ℚ) : PriceKeyState × Option ℚ :=
  match s.cache with
  | none => (s, none)
  | some (price, ts) =>
      if now - ts < PRICE_TTL_SECONDS then (s, some price)
      else ({ s with cache := none }, none)

/-- `PriceCache.get_history`: read-only copy of the history. -/
def PriceCache_get_history (s : PriceKeyState) : List (ℚ × ℚ) := s.history

/-- `PriceCache.clear_expired`: a key whose cache entry has age
`≥ ttl_seconds` is in `expired_keys`; for such a key the cache entry *and
the whole history deque* are popped (`self.history.pop(key, None)`).  A
surviving key's history is pruned to the retention window, and an emptied
deque is removed (the empty list models both). -/
def PriceCache_clear_expired (s : PriceKeyState) (now : ℚ) : PriceKeyState :=
  match s.cache with
  | some (_, ts) =>
      if now - ts ≥ PRICE_TTL_SECONDS then { cache := none, history := [] }
      else { cache := s.cache,
             history := pruneHistory (now - HISTORY_SECONDS) s.history }
  | none =>
      { cache := none, history := pruneHistory (now - HISTORY_SECONDS) s.history }

/-- An entry whose timestamp is not older than the cutoff survives
`pruneHistory`. -/
lemma mem_pruneHistory_of_le (cutoff : ℚ) (e : ℚ × ℚ) :
    ∀ l : List (ℚ × ℚ), e ∈ l → cutoff ≤ e.1 → e ∈ pruneHistory cutoff l := by
  intro l
  induction l with
  | nil => intro h _; simp at h
  | cons a rest ih =>
    intro hmem hcut
    obtain ⟨ts, p⟩ := a
    rw [pruneHistory]
    by_cases hts : ts < cutoff
    · rw [if_pos hts]
      rcases List.mem_cons.mp hmem with heq | hmem'
      · exfalso
        subst heq
        exact absurd hts (not_lt.mpr hcut)
      · exact ih hmem' hcut
    · rw [if_neg hts]
      exact hmem

/-- C9 counterexample: record a price for a key at `t = 0`, then run
`clear_expired` at `t = 31`.  The key's short-TTL cache entry is 31 s old
(`≥ 30`), so the key lands in `expired_keys` and its *entire* history is
popped — including the entry `(0, 50000)`, which is only 31 s old, far
younger than the 1-hour retention window.  So "a history entry younger
than 1 hour is never dropped by any of these operations" fails for
`clear_expired`. -/
theorem history_retention_counterexample :
    (PriceCache_record ⟨none, []⟩ 50000 0).history = [(0, 50000)] ∧
    (PriceCache_clear_expired (PriceCache_record ⟨none, []⟩ 50000 0) 31).history
      = [] ∧
    (31 : ℚ) - 0 < HISTORY_SECONDS := by
  refine ⟨?_, ?_, by norm_num [HISTORY_SECONDS]⟩
  · norm_num [PriceCache_record, pruneHistory, HISTORY_SECONDS]
  · norm_num [PriceCache_record, PriceCache_clear_expired, pruneHistory,
      HISTORY_SECONDS, PRICE_TTL_SECONDS]

/-- C9 amended: `record`, `get` and `get_history` never drop a history
entry younger than the 1-hour retention window, and `clear_expired`
keeps such entries for keys whose short-TTL cache entry is still live
(age < 30 s) or absent — but for a key whose cache entry has expired,
`clear_expired` removes the key's entire history, young entries
included. -/
theorem history_retention (s : PriceKeyState) (e : ℚ × ℚ) (he : e ∈ s.history) :
    (∀ price t, t - HISTORY_SECONDS ≤ e.1 →
      e ∈ (PriceCache_record s price t).history)
    ∧ (∀ now, e ∈ ((PriceCache_get s now).1).history)
    ∧ e ∈ PriceCache_get_history s
    ∧ (∀ now, now - HISTORY_SECONDS ≤ e.1 →
        (∀ p ts, s.cache = some (p, ts) → now - ts < PRICE_TTL_SECONDS) →
        e ∈ (PriceCache_clear_expired s now).history)
    ∧ (∀ now p ts, s.cache = some (p, ts) → now - ts ≥ PRICE_TTL_SECONDS →
        (PriceCache_clear_expired s now).history = []) := by
  refine ⟨?_, ?_, he, ?_, ?_⟩
  · intro price t hcut
    unfold PriceCache_record
    exact mem_pruneHistory_of_le _ e _ (by simp [he]) (by linarith)
  · intro now
    unfold PriceCache_get
    cases hc : s.cache with
    | none => exact he
    | some pr =>
      obtain ⟨p, ts⟩ := pr
      dsimp only
      by_cases hlt : now - ts < PRICE_TTL_SECONDS
      · rw [if_pos hlt]; exact he
      · rw [if_neg hlt]; exact he
  · intro now hcut hlive
    unfold PriceCache_clear_expired
    cases hc : s.cache with
    | none => exact mem_pruneHistory_of_le _ e _ he (by linarith)
    | some pr =>
      obtain ⟨p, ts⟩ := pr
      have hl := hlive p ts hc
      dsimp only
      rw [if_neg (not_le.mpr hl)]
      exact mem_pruneHistory_of_le _ e _ he (by linarith)
  · intro now p ts hc hexp
    unfold PriceCache_clear_expired
    rw [hc]
    dsimp only
    simp [hexp]

/-- Witness for `history_retention`: the single entry recorded at `t = 0`
is still in the history after a `get` at `t = 100`. -/
theorem history_retention_witness :
    (0, 50000) ∈ ((PriceCache_get ⟨some (50000, 0), [(0, 50000)]⟩ 100).1).history :=
  (history_retention ⟨some (50000, 0), [(0, 50000)]⟩ (0, 50000) (by simp)).2.1 100

/-! ## Single-flight concurrency model
(`StrategyManager._trigger_account`, `services/trading_strategy.py`)

Interleaving model of one account's decision tasks.  A runner thread is in
phase `spawned` between `threading.Thread(...).start()` and its
test-and-set on `state.lock`; `working` while it executes the decision
body (`place_ai_driven_crypto_order` ... `update_after_trigger`); `done`
after the `finally` block or after losing the test-and-set.  The shared
state is the `running` flag and `tick_counter`; `state.lock` is modelled
by making each `with state.lock:` block one atomic step (inside the lock
the runner touches only `running` and `tick_counter`). -/

/-- Phase of one spawned runner thread. -/
inductive TaskPhase
  | spawned
  | working
  | done
deriving DecidableEq, Repr

/-- Shared per-account state plus the phases of all runner threads ever
started for this account. -/
structure SysState where
  running : Bool
  tick_counter : Nat
  tasks : List TaskPhase
deriving DecidableEq, Repr

/-- Kinds of atomic steps. -/
inductive Act
  | arrive
  | tick
  | acquire
  | finish
deriving DecidableEq, Repr

/-- Atomic steps of the trigger engine and the runner threads, one
constructor per code point:

* `arrive_idle` / `arrive_busy` — `_trigger_account`'s unlocked
  `if state.running: return` followed (only in the idle case) by
  `threading.Thread(target=runner).start()`;
* `tick` — `handle_price_update` writing `tick_counter` (increment or
  reset) outside the lock;
* `acquire` / `acquire_skip` — the runner's `with state.lock:` test-and-set
  (`if state.running: return` / `state.running = True`);
* `finish` — the decision body completing followed by the `finally:` block
  `with state.lock: state.running = False; state.tick_counter = 0`. -/
inductive Step : Act → SysState → SysState → Prop
  | arrive_idle {s : SysState} (h : s.running = false) :
      Step Act.arrive s { s with tasks := s.tasks ++ [TaskPhase.spawned] }
  | arrive_busy {s : SysState} (h : s.running = true) :
      Step Act.arrive s s
  | tick {s : SysState} (n : Nat) :
      Step Act.tick s { s with tick_counter := n }
  | acquire {s : SysState} {i : Nat}
      (h : s.tasks.get? i = some TaskPhase.spawned) (hr : s.running = false) :
      Step Act.acquire s
        { s with running := true, tasks := s.tasks.set i TaskPhase.working }
  | acquire_skip {s : SysState} {i : Nat}
      (h : s.tasks.get? i = some TaskPhase.spawned) (hr : s.running = true) :
      Step Act.acquire s { s with tasks := s.tasks.set i TaskPhase.done }
  | finish {s : SysState} {i : Nat}
      (h : s.tasks.get? i = some TaskPhase.working) :
      Step Act.finish s
        { s with running := false, tick_counter := 0,
                 tasks := s.tasks.set i TaskPhase.done }

/-- Initial state: `running=False`, `tick_counter=0`, no threads. -/
def initSys : SysState := { running := false, tick_counter := 0, tasks := [] }

/-- States reachable by interleaving the steps. -/
inductive Reachable : SysState → Prop
  | init : Reachable initSys
  | step {s s' : SysState} {a : Act} :
      Reachable s → Step a s s' → Reachable s'

/-- Number of runner threads currently executing the decision body. -/
def workingCount (s : SysState) : Nat :=
  s.tasks.countP (fun p => p == TaskPhase.working)

lemma countP_set (p : TaskPhase → Bool) (l : List TaskPhase) (i : Nat)
    (a v : TaskPhase) (h : l.get? i = some a) :
    (l.set i v).countP p + (if p a then 1 else 0)
      = l.countP p + (if p v then 1 else 0) := by
  induction l generalizing i with
  | nil => simp at h
  | cons b rest ih =>
    cases i with
    | zero =>
      rw [List.get?_cons_zero, Option.some_inj] at h
      subst h
      simp only [List.set, List.countP_cons]
      omega
    | succ i =>
      rw [List.get?_cons_succ] at h
      simp only [List.set, List.countP_cons]
      have := ih i h
      omega

lemma one_le_countP_of_mem {l : List TaskPhase} {i : Nat}
    (h : l.get? i = some TaskPhase.working) :
    1 ≤ l.countP (fun p => p == TaskPhase.working) := by
  have hm : TaskPhase.working ∈ l := List.get?_mem h
  exact List.countP_pos.mpr ⟨TaskPhase.working, hm, by simp⟩

lemma two_le_countP_of_get (l : List TaskPhase) :
    ∀ (i j : Nat), i ≠ j → l.get? i = some TaskPhase.working →
      l.get? j = some TaskPhase.working →
      2 ≤ l.countP (fun p => p == TaskPhase.working) := by
  induction l with
  | nil => intro i j _ hi _; simp at hi
  | cons b rest ih =>
    intro i j hij hi hj
    cases i with
    | zero =>
      cases j with
      | zero => exact absurd rfl hij
      | succ j =>
        rw [List.get?_cons_zero, Option.some_inj] at hi
        rw [List.get?_cons_succ] at hj
        have h1 := one_le_countP_of_mem hj
        subst hi
        rw [List.countP_cons, if_pos (by decide)]
        omega
    | succ i =>
      cases j with
      | zero =>
        rw [List.get?_cons_zero, Option.some_inj] at hj
        rw [List.get?_cons_succ] at hi
        have h1 := one_le_countP_of_mem hi
        subst hj
        rw [List.countP_cons, if_pos (by decide)]
        omega
      | succ j =>
        rw [List.get?_cons_succ] at hi hj
        have := ih i j (fun hcon => hij (by rw [hcon])) hi hj
        rw [List.countP_cons]
        omega

lemma count_working_set_acquire {l : List TaskPhase} {i : Nat}
    (h : l.get? i = some TaskPhase.spawned) :
    (l.set i TaskPhase.working).countP (fun p => p == TaskPhase.working)
      = l.countP (fun p => p == TaskPhase.working) + 1 := by
  have hc := countP_set (fun p => p == TaskPhase.working) l i
    TaskPhase.spawned TaskPhase.working h
  rw [if_neg (by decide), if_pos (by decide)] at hc
  omega

lemma count_working_set_skip {l : List TaskPhase} {i : Nat}
    (h : l.get? i = some TaskPhase.spawned) :
    (l.set i TaskPhase.done).countP (fun p => p == TaskPhase.working)
      = l.countP (fun p => p == TaskPhase.working) := by
  have hc := countP_set (fun p => p == TaskPhase.working) l i
    TaskPhase.spawned TaskPhase.done h
  rw [if_neg (by decide), if_neg (by decide)] at hc
  omega

lemma count_working_set_finish {l : List TaskPhase} {i : Nat}
    (h : l.get? i = some TaskPhase.working) :
    (l.set i TaskPhase.done).countP (fun p => p == TaskPhase.working) + 1
      = l.countP (fun p => p == TaskPhase.working) := by
  have hc := countP_set (fun p => p == TaskPhase.working) l i
    TaskPhase.working TaskPhase.done h
  rw [if_pos (by decide), if_neg (by decide)] at hc
  omega

/-- Key invariant: the number of threads executing the decision body is 1
when `running` is set and 0 when it is clear. -/
lemma running_working_inv : ∀ s, Reachable s →
    workingCount s = (if s.running then 1 else 0) := by
  intro s h
  induction h with
  | init => simp [initSys, workingCount]
  | @step s s' a hr hstep ih =>
    cases hstep with
    | arrive_idle h =>
      simp only [workingCount] at ih ⊢
      dsimp only
      rw [List.countP_append, ih]
      simp
    | arrive_busy h => exact ih
    | tick n => exact ih
    | @acquire s i h hrun =>
      have hc := count_working_set_acquire h
      simp only [workingCount] at ih hc ⊢
      rw [hc, ih, hrun]
      decide
    | @acquire_skip s i h hrun =>
      have hc := count_working_set_skip h
      simp only [workingCount] at ih hc ⊢
      dsimp only
      rw [hc, ih]
    | @finish s i h =>
      have hc := count_working_set_finish h
      have hone := one_le_countP_of_mem h
      simp only [workingCount] at ih hc hone ⊢
      dsimp only
      have hrun : s.running = true := by
        by_contra hf
        simp only [Bool.not_eq_true] at hf
        rw [hf, if_neg Bool.false_ne_true] at ih
        omega
      rw [hrun, if_pos rfl] at ih
      rw [if_neg Bool.false_ne_true]
      omega

/-- C1: single-flight per account, over the interleaving model of
`_trigger_account`: (i) mutual exclusion — in every reachable state at
most one decision task is executing its decision body, so the execution
intervals of any two tasks are disjoint (one finishes before the other is
admitted); (ii) a price event processed while the `running` flag is set
(a task is in flight) starts no new task — the handler returns without
spawning; (iii) the `finally` step (performed under the per-state lock)
leaves `running = false` and `tick_counter = 0`. -/
theorem single_flight (s : SysState) (hs : Reachable s) :
    (∀ i j, s.tasks.get? i = some TaskPhase.working →
      s.tasks.get? j = some TaskPhase.working → i = j)
    ∧ (∀ s', Step Act.arrive s s' → s.running = true → s' = s)
    ∧ (∀ s', Step Act.finish s s' →
        s'.running = false ∧ s'.tick_counter = 0) := by
  refine ⟨?_, ?_, ?_⟩
  · intro i j hi hj
    by_contra hij
    have h2 := two_le_countP_of_get s.tasks i j hij hi hj
    have hinv := running_working_inv s hs
    simp only [workingCount] at hinv
    rw [hinv] at h2
    split_ifs at h2 <;> omega
  · intro s' hstep hrun
    cases hstep with
    | arrive_idle h => rw [hrun] at h; cases h
    | arrive_busy h => rfl
  · intro s' hstep
    cases hstep with
    | finish h => exact ⟨rfl, rfl⟩

/-- Witness for `single_flight`: the state reached by a tick write, an
event spawning a runner, and the runner winning the test-and-set is
reachable, and mutual exclusion holds there. -/
theorem single_flight_witness :
    Reachable (⟨true, 5, [TaskPhase.working]⟩ : SysState) ∧ (0 : Nat) = 0 := by
  have h1 : Reachable (⟨false, 5, []⟩ : SysState) :=
    Reachable.step Reachable.init (Step.tick 5)
  have h2 : Reachable (⟨false, 5, [TaskPhase.spawned]⟩ : SysState) :=
    Reachable.step h1 (Step.arrive_idle rfl)
  have h3 : Reachable (⟨true, 5, [TaskPhase.working]⟩ : SysState) :=
    Reachable.step h2 (@Step.acquire ⟨false, 5, [TaskPhase.spawned]⟩ 0 rfl rfl)
  exact ⟨h3, (single_flight _ h3).1 0 0 rfl rfl⟩

end RealAlphaTrader
